import Mathlib

/-!
Verification of the `EncodingService` core of the VIGIL encoder/decoder
(`src/services/encodingService.ts`): a shallow embedding of the string
transforms (`caesarCipher`, `digitReversal`, `positionShift`,
`customMapping`, `reverseCustomMapping`, `reverseCustomFunction`), the
dispatchers `encode` / `decode`, the validator `validateFormula` and the
self-test harness `testFormula`, together with proofs of the specified
properties.

JavaScript strings are modelled as lists of UTF-16 code units
(`List Nat`); the JS `%` operator is truncated remainder (`Int.tmod`);
`String.fromCharCode` reduces its argument modulo 2^16.  The `custom`
algorithm executes arbitrary user-supplied code via `new Function`; its
semantics is a parameter `exec` of the dispatchers, and every theorem
holds for all `exec`.
-/

namespace Vigil

/-- JS strings as lists of UTF-16 code units. -/
abbrev JsStr := List Nat

/-- Code units of a Lean string literal (ASCII examples only). -/
def strCodes (s : String) : JsStr := s.toList.map Char.toNat

/-- Field `parameters` of `EncodingFormula` (src/types, `parameters` bag).
Absent optional fields are `none`; `customMapping` is an association list
in JS-object insertion order. -/
structure FormulaParams where
  shiftValue : Option Int
  customMapping : Option (List (Nat × Nat))
  customFunction : Option JsStr

/-- The `EncodingFormula` descriptor.  `algorithm` is kept as an open
string because `encode`/`decode` have a reachable default branch for
unknown tags. -/
structure EncodingFormula where
  id : JsStr
  name : JsStr
  algorithm : String
  parameters : FormulaParams
  createdAt : Nat

/-- JS `String.fromCharCode`: ToUint16 of the integer argument. -/
def fromCharCode (n : Int) : Nat := (n % 65536).toNat

/-- One character of `caesarCipher`: letters shift within their case's
26-letter alphabet, digits within the 10-digit alphabet, others pass
through; `.tmod` is the JS truncated `%`. -/
def caesarChar (shift : Int) (c : Nat) : Nat :=
  if (65 ≤ c ∧ c ≤ 90) ∨ (97 ≤ c ∧ c ≤ 122) then
    fromCharCode (((c : Int) - (if 65 ≤ c ∧ c ≤ 90 then (65 : Int) else 97) + shift + 26).tmod 26
      + (if 65 ≤ c ∧ c ≤ 90 then (65 : Int) else 97))
  else if 48 ≤ c ∧ c ≤ 57 then
    fromCharCode (((c : Int) - 48 + shift + 10).tmod 10 + 48)
  else c

/-- `EncodingService.caesarCipher`. -/
def caesarCipher (text : JsStr) (shift : Int) : JsStr :=
  text.map (caesarChar shift)

/-- The regex `[A-Za-z0-9]` on a single code unit. -/
def isAlnumCode (c : Nat) : Bool :=
  (65 ≤ c && c ≤ 90) || (97 ≤ c && c ≤ 122) || (48 ≤ c && c ≤ 57)

/-- The rewrite loop of `digitReversal`: each alphanumeric position takes
the next element of `rs` (`reversed[reversedIndex++] || char`), other
characters stay. -/
def replaceAlnum : JsStr → JsStr → JsStr
  | [], _ => []
  | c :: cs, rs =>
    if isAlnumCode c then
      match rs with
      | r :: rs2 => r :: replaceAlnum cs rs2
      | [] => c :: replaceAlnum cs []
    else
      c :: replaceAlnum cs rs

/-- `EncodingService.digitReversal`: reverse the subsequence of
alphanumeric characters in place. -/
def digitReversal (text : JsStr) : JsStr :=
  replaceAlnum text (text.filter isAlnumCode).reverse

/-- `EncodingService.positionShift`: left circular rotation by
`((shift % length) + length) % length` (JS truncated `%`), identity for
length ≤ 1. -/
def positionShift (text : JsStr) (shift : Int) : JsStr :=
  if text.length ≤ 1 then text
  else
    text.drop ((shift.tmod text.length + text.length).tmod text.length).toNat ++
      text.take ((shift.tmod text.length + text.length).tmod text.length).toNat

/-- JS object property read on an association list with unique keys. -/
def objGet (m : List (Nat × Nat)) (k : Nat) : Option Nat :=
  (m.find? (fun p => p.1 == k)).map (fun p => p.2)

/-- JS object property write: update an existing key in place, else
append (insertion order preserved). -/
def objSet (m : List (Nat × Nat)) (k v : Nat) : List (Nat × Nat) :=
  if m.any (fun p => p.1 == k) then
    m.map (fun p => if p.1 == k then (k, v) else p)
  else
    m ++ [(k, v)]

/-- `EncodingService.customMapping`: `mapping[char] || char`. -/
def customMapping (text : JsStr) (mapping : List (Nat × Nat)) : JsStr :=
  text.map (fun c => (objGet mapping c).getD c)

/-- The inverse object built by `reverseCustomMapping`'s reduce:
`acc[value] = key` over entries in insertion order, so on duplicate
values the last-inserted entry wins. -/
def buildReverseMap (mapping : List (Nat × Nat)) : List (Nat × Nat) :=
  mapping.foldl (fun acc p => objSet acc p.2 p.1) []

/-- `EncodingService.reverseCustomMapping`. -/
def reverseCustomMapping (text : JsStr) (mapping : List (Nat × Nat)) : JsStr :=
  text.map (fun c => (objGet (buildReverseMap mapping) c).getD c)

/-- `EncodingService.reverseCustomFunction`: a placeholder that returns
the input unchanged. -/
def reverseCustomFunction (text : JsStr) (_functionCode : JsStr) : JsStr :=
  text

/-- `EncodingService.encode`.  `exec` is the semantics of running the
user-supplied `customFunction` source (`new Function` plus its
`|| text` fallback); all results below hold for every `exec`.  The
`default` branch of the switch throws and the catch returns the original
value, so it is modelled as the identity. -/
def encode (exec : JsStr → JsStr → JsStr) (value : JsStr)
    (fm : EncodingFormula) : JsStr :=
  if value = [] then value
  else if fm.algorithm = "caesar" then
    caesarCipher value (fm.parameters.shiftValue.getD 0)
  else if fm.algorithm = "digit_reversal" then
    digitReversal value
  else if fm.algorithm = "position_shift" then
    positionShift value (fm.parameters.shiftValue.getD 0)
  else if fm.algorithm = "custom_mapping" then
    customMapping value (fm.parameters.customMapping.getD [])
  else if fm.algorithm = "custom" then
    exec value (fm.parameters.customFunction.getD [])
  else value

/-- `EncodingService.decode`: same dispatch with negated shift for
`caesar` and `position_shift`, inverse map for `custom_mapping`, and the
identity placeholder for `custom`. -/
def decode (_exec : JsStr → JsStr → JsStr) (encodedValue : JsStr)
    (fm : EncodingFormula) : JsStr :=
  if encodedValue = [] then encodedValue
  else if fm.algorithm = "caesar" then
    caesarCipher encodedValue (-(fm.parameters.shiftValue.getD 0))
  else if fm.algorithm = "digit_reversal" then
    digitReversal encodedValue
  else if fm.algorithm = "position_shift" then
    positionShift encodedValue (-(fm.parameters.shiftValue.getD 0))
  else if fm.algorithm = "custom_mapping" then
    reverseCustomMapping encodedValue (fm.parameters.customMapping.getD [])
  else if fm.algorithm = "custom" then
    reverseCustomFunction encodedValue (fm.parameters.customFunction.getD [])
  else encodedValue

/-- Result record of `validateFormula`. -/
structure ValidationResult where
  isValid : Bool
  errors : List String

/-- `EncodingService.validateFormula`: collect all applicable errors in
source order; valid iff the list is empty. -/
def validateFormula (fm : EncodingFormula) : ValidationResult :=
  let errors : List String :=
    (if fm.id = [] then ["Formula ID is required"] else []) ++
    (if fm.name = [] then ["Formula name is required"] else []) ++
    (if fm.algorithm = "" then ["Algorithm is required"] else []) ++
    (if fm.algorithm = "caesar" then
      if fm.parameters.shiftValue.isNone then
        ["Caesar cipher requires a numeric shift value"] else []
    else if fm.algorithm = "position_shift" then
      if fm.parameters.shiftValue.isNone then
        ["Position shift requires a numeric shift value"] else []
    else if fm.algorithm = "custom_mapping" then
      if fm.parameters.customMapping.getD [] = [] then
        ["Custom mapping requires at least one character mapping"] else []
    else if fm.algorithm = "custom" then
      if fm.parameters.customFunction.getD [] = [] then
        ["Custom algorithm requires function code"] else []
    else [])
  ⟨errors.isEmpty, errors⟩

/-- Result record of `testFormula`. -/
structure TestResult where
  original : JsStr
  encoded : JsStr
  decoded : JsStr
  isReversible : Bool

/-- `EncodingService.testFormula`: encode the sample, decode the result,
reversible iff the round trip restores the sample. -/
def testFormula (exec : JsStr → JsStr → JsStr) (fm : EncodingFormula)
    (testValue : JsStr) : TestResult :=
  let encoded := encode exec testValue fm
  let decoded := decode exec encoded fm
  ⟨testValue, encoded, decoded, testValue == decoded⟩

/-- An `exec` instance for witnesses: ignore the code, return the text
(the fallback behaviour of `customFunction` on failure). -/
def execId : JsStr → JsStr → JsStr := fun t _ => t

/-- A formula descriptor with the given algorithm tag and parameters. -/
def mkFormula (alg : String) (p : FormulaParams) : EncodingFormula :=
  ⟨strCodes "f1", strCodes "Formula 1", alg, p, 0⟩

/-- Parameter bag with only a shift value. -/
def shiftParams (s : Int) : FormulaParams := ⟨some s, none, none⟩

/-- A caesar formula with the given shift value. -/
def caesarFormula (s : Int) : EncodingFormula :=
  mkFormula "caesar" (shiftParams s)

/-- A position-shift formula with the given shift value. -/
def positionShiftFormula (s : Int) : EncodingFormula :=
  mkFormula "position_shift" (shiftParams s)

/-- A digit-reversal formula. -/
def digitReversalFormula : EncodingFormula :=
  mkFormula "digit_reversal" ⟨none, none, none⟩

/-- The non-injective custom mapping \x7ba: 'b', c: 'b'\x7d of the spec. -/
def ambiguousMapping : List (Nat × Nat) := [(97, 98), (99, 98)]

/-- A custom-mapping formula over `ambiguousMapping`. -/
def ambiguousFormula : EncodingFormula :=
  mkFormula "custom_mapping" ⟨none, some ambiguousMapping, none⟩

/-- Truncated remainder by a positive modulus is greater than the negated
modulus (JS `%` bound for negative dividends). -/
theorem neg_lt_tmod (a : Int) {b : Int} (hb : 0 < b) : -b < a.tmod b := by
  cases a with
  | ofNat m =>
    have h0 : 0 ≤ Int.tmod (Int.ofNat m) b :=
      Int.tmod_nonneg b (by rw [Int.ofNat_eq_coe]; exact Int.natCast_nonneg m)
    omega
  | negSucc m =>
    cases b with
    | ofNat n =>
      have hn : 0 < n := by
        rw [Int.ofNat_eq_coe] at hb
        exact_mod_cast hb
      have hdef : Int.tmod (Int.negSucc m) (Int.ofNat n)
          = -(((m + 1) % n : Nat) : Int) := rfl
      have hlt := Nat.mod_lt (m + 1) hn
      rw [hdef, Int.ofNat_eq_coe]
      omega
    | negSucc n =>
      have hneg := Int.negSucc_lt_zero n
      omega

/-- The source's `((x % L) + L) % L` normalization (both `%` truncated)
equals the mathematical (Euclidean) remainder. -/
theorem tmod_normalize (a b : Int) (hb : 0 < b) :
    (a.tmod b + b).tmod b = a % b := by
  have h1 : -b < a.tmod b := neg_lt_tmod a hb
  have h2 : 0 ≤ a.tmod b + b := by omega
  rw [Int.tmod_eq_emod h2 (Int.le_of_lt hb), Int.tmod_def]
  have h3 : a - b * a.tdiv b + b = a + b * (1 - a.tdiv b) := by ring
  rw [h3, Int.add_mul_emod_self_left]

/-- On strings of length at least 2, `positionShift` is a left rotation
by the Euclidean remainder of the shift. -/
theorem positionShift_eq_rotate (text : JsStr) (shift : Int)
    (h : 2 ≤ text.length) :
    positionShift text shift
      = text.rotate (shift % (text.length : Int)).toNat := by
  have hL : 0 < (text.length : Int) := by omega
  have hnn : 0 ≤ shift % (text.length : Int) := Int.emod_nonneg _ (by omega)
  have hlt : shift % (text.length : Int) < text.length :=
    Int.emod_lt_of_pos _ hL
  rw [positionShift, if_neg (by omega), tmod_normalize _ _ hL,
    List.rotate_eq_drop_append_take (by omega)]

/-- `positionShift` preserves length. -/
theorem positionShift_length (text : JsStr) (shift : Int) :
    (positionShift text shift).length = text.length := by
  by_cases h : text.length ≤ 1
  · rw [positionShift, if_pos h]
  · rw [positionShift_eq_rotate text shift (by omega), List.length_rotate]

/-- Shifting by `shift` then by `-shift` restores the string. -/
theorem positionShift_roundtrip (text : JsStr) (shift : Int) :
    positionShift (positionShift text shift) (-shift) = text := by
  by_cases h : text.length ≤ 1
  · have hinner : positionShift text shift = text := by
      rw [positionShift, if_pos h]
    rw [hinner, positionShift, if_pos h]
  · have h2 : 2 ≤ text.length := by omega
    have hL : 0 < (text.length : Int) := by omega
    rw [positionShift_eq_rotate text shift h2]
    rw [positionShift_eq_rotate _ (-shift)
      (by rw [List.length_rotate]; exact h2)]
    rw [List.length_rotate, List.rotate_rotate]
    have hz : (shift % (text.length : Int) + -shift % (text.length : Int))
        % (text.length : Int) = 0 := by
      rw [← Int.add_emod]
      simp
    have hu1 : 0 ≤ shift % (text.length : Int) :=
      Int.emod_nonneg _ (by omega)
    have hu2 : shift % (text.length : Int) < text.length :=
      Int.emod_lt_of_pos _ hL
    have hv1 : 0 ≤ -shift % (text.length : Int) :=
      Int.emod_nonneg _ (by omega)
    have hv2 : -shift % (text.length : Int) < text.length :=
      Int.emod_lt_of_pos _ hL
    rcases lt_or_le (shift % (text.length : Int)
        + -shift % (text.length : Int)) (text.length : Int) with hc | hc
    · have hself : (shift % (text.length : Int)
          + -shift % (text.length : Int)) % (text.length : Int)
          = shift % (text.length : Int) + -shift % (text.length : Int) :=
        Int.emod_eq_of_lt (by omega) hc
      have hsum : (shift % (text.length : Int)).toNat
          + (-shift % (text.length : Int)).toNat = 0 := by omega
      rw [hsum, List.rotate_zero]
    · have hshift : shift % (text.length : Int)
          + -shift % (text.length : Int)
          = (shift % (text.length : Int) + -shift % (text.length : Int)
            - text.length) + (text.length : Int) * 1 := by ring
      have hz2 : (shift % (text.length : Int)
          + -shift % (text.length : Int) - text.length)
          % (text.length : Int) = 0 := by
        rw [← Int.add_mul_emod_self_left
          (shift % (text.length : Int) + -shift % (text.length : Int)
            - text.length) (text.length : Int) 1, ← hshift, hz]
      have hself : (shift % (text.length : Int)
          + -shift % (text.length : Int) - text.length)
          % (text.length : Int)
          = shift % (text.length : Int) + -shift % (text.length : Int)
            - text.length :=
        Int.emod_eq_of_lt (by omega) (by omega)
      have hsum : (shift % (text.length : Int)).toNat
          + (-shift % (text.length : Int)).toNat = text.length := by omega
      rw [hsum, List.rotate_length]

/-- Value of `caesarChar` on an uppercase letter when the JS truncated
`%` agrees with the mathematical remainder (shift at least `-26`). -/
theorem caesarChar_upper (s : Int) (c : Nat) (h1 : 65 ≤ c) (h2 : c ≤ 90)
    (hs : -26 ≤ s) :
    (caesarChar s c : Int) = ((c : Int) - 65 + s) % 26 + 65 := by
  rw [caesarChar, if_pos (Or.inl ⟨h1, h2⟩), if_pos ⟨h1, h2⟩, fromCharCode]
  have hnn : 0 ≤ (c : Int) - 65 + s + 26 := by omega
  rw [Int.tmod_eq_emod hnn (by omega)]
  omega

/-- Value of `caesarChar` on a lowercase letter. -/
theorem caesarChar_lower (s : Int) (c : Nat) (h1 : 97 ≤ c) (h2 : c ≤ 122)
    (hs : -26 ≤ s) :
    (caesarChar s c : Int) = ((c : Int) - 97 + s) % 26 + 97 := by
  have hnu : ¬(65 ≤ c ∧ c ≤ 90) := by omega
  rw [caesarChar, if_pos (Or.inr ⟨h1, h2⟩), if_neg hnu, fromCharCode]
  have hnn : 0 ≤ (c : Int) - 97 + s + 26 := by omega
  rw [Int.tmod_eq_emod hnn (by omega)]
  omega

/-- Value of `caesarChar` on a digit (shift at least `-10`). -/
theorem caesarChar_digit (s : Int) (c : Nat) (h1 : 48 ≤ c) (h2 : c ≤ 57)
    (hs : -10 ≤ s) :
    (caesarChar s c : Int) = ((c : Int) - 48 + s) % 10 + 48 := by
  have hnl : ¬((65 ≤ c ∧ c ≤ 90) ∨ (97 ≤ c ∧ c ≤ 122)) := by omega
  rw [caesarChar, if_neg hnl, if_pos ⟨h1, h2⟩, fromCharCode]
  have hnn : 0 ≤ (c : Int) - 48 + s + 10 := by omega
  rw [Int.tmod_eq_emod hnn (by omega)]
  omega

/-- `caesarChar` fixes every non-alphanumeric character. -/
theorem caesarChar_other (s : Int) (c : Nat)
    (hnl : ¬((65 ≤ c ∧ c ≤ 90) ∨ (97 ≤ c ∧ c ≤ 122)))
    (hnd : ¬(48 ≤ c ∧ c ≤ 57)) : caesarChar s c = c := by
  rw [caesarChar, if_neg hnl, if_neg hnd]

/-- A zero shift fixes every character. -/
theorem caesarChar_zero (c : Nat) : caesarChar 0 c = c := by
  by_cases hu : 65 ≤ c ∧ c ≤ 90
  · have hv := caesarChar_upper 0 c hu.1 hu.2 (by omega)
    omega
  · by_cases hl : 97 ≤ c ∧ c ≤ 122
    · have hv := caesarChar_lower 0 c hl.1 hl.2 (by omega)
      omega
    · by_cases hd : 48 ≤ c ∧ c ≤ 57
      · have hv := caesarChar_digit 0 c hd.1 hd.2 (by omega)
        omega
      · exact caesarChar_other 0 c (by omega) hd

/-- For shifts between `-10` and `10`, shifting by `s` and then by `-s`
restores every character (outside this range the truncated `%` can leave
the alphabet and the round trip can fail). -/
theorem caesarChar_roundtrip (s : Int) (c : Nat) (hs1 : -10 ≤ s)
    (hs2 : s ≤ 10) : caesarChar (-s) (caesarChar s c) = c := by
  by_cases hu : 65 ≤ c ∧ c ≤ 90
  · have hv := caesarChar_upper s c hu.1 hu.2 (by omega)
    have hb1 : 65 ≤ caesarChar s c := by omega
    have hb2 : caesarChar s c ≤ 90 := by omega
    have hw := caesarChar_upper (-s) (caesarChar s c) hb1 hb2 (by omega)
    omega
  · by_cases hl : 97 ≤ c ∧ c ≤ 122
    · have hv := caesarChar_lower s c hl.1 hl.2 (by omega)
      have hb1 : 97 ≤ caesarChar s c := by omega
      have hb2 : caesarChar s c ≤ 122 := by omega
      have hw := caesarChar_lower (-s) (caesarChar s c) hb1 hb2 (by omega)
      omega
    · by_cases hd : 48 ≤ c ∧ c ≤ 57
      · have hv := caesarChar_digit s c hd.1 hd.2 (by omega)
        have hb1 : 48 ≤ caesarChar s c := by omega
        have hb2 : caesarChar s c ≤ 57 := by omega
        have hw := caesarChar_digit (-s) (caesarChar s c) hb1 hb2 (by omega)
        omega
      · have hfix := caesarChar_other s c (by omega) hd
        rw [hfix]
        exact caesarChar_other (-s) c (by omega) hd

/-- `caesarCipher` with a zero shift is the identity. -/
theorem caesarCipher_zero (text : JsStr) : caesarCipher text 0 = text := by
  induction text with
  | nil => rfl
  | cons c t ih =>
    rw [caesarCipher, List.map_cons, caesarChar_zero]
    rw [caesarCipher] at ih
    rw [ih]

/-- `caesarCipher` round trip for shifts between `-10` and `10`. -/
theorem caesarCipher_roundtrip (text : JsStr) (s : Int) (hs1 : -10 ≤ s)
    (hs2 : s ≤ 10) : caesarCipher (caesarCipher text s) (-s) = text := by
  induction text with
  | nil => rfl
  | cons c t ih =>
    rw [caesarCipher, caesarCipher, List.map_cons, List.map_cons,
      caesarChar_roundtrip s c hs1 hs2]
    rw [caesarCipher, caesarCipher] at ih
    rw [ih]

/-- `caesarCipher` preserves length. -/
theorem caesarCipher_length (text : JsStr) (s : Int) :
    (caesarCipher text s).length = text.length := by
  rw [caesarCipher, List.length_map]

/-- Non-alphanumeric head characters pass through `replaceAlnum`
regardless of the replacement sequence. -/
theorem replaceAlnum_cons_neg (c : Nat) (cs rs : JsStr)
    (hc : ¬ isAlnumCode c) :
    replaceAlnum (c :: cs) rs = c :: replaceAlnum cs rs := by
  cases rs <;> simp [replaceAlnum, hc]

/-- `replaceAlnum` preserves length. -/
theorem replaceAlnum_length (t : JsStr) : ∀ rs : JsStr,
    (replaceAlnum t rs).length = t.length := by
  induction t with
  | nil => intro rs; rfl
  | cons c cs ih =>
    intro rs
    by_cases hc : isAlnumCode c
    · cases rs with
      | nil => simp [replaceAlnum, hc, ih]
      | cons r rs2 => simp [replaceAlnum, hc, ih]
    · simp [replaceAlnum, hc, ih]

/-- Filtering the result of `replaceAlnum` recovers the replacement
sequence, when it consists of alphanumeric characters and has the same
length as the filtered original. -/
theorem replaceAlnum_filter (t : JsStr) : ∀ rs : JsStr,
    (∀ r ∈ rs, isAlnumCode r = true) →
    rs.length = (t.filter isAlnumCode).length →
    (replaceAlnum t rs).filter isAlnumCode = rs := by
  induction t with
  | nil =>
    intro rs _ hlen
    simp only [List.filter_nil, List.length_nil] at hlen
    simp [replaceAlnum, List.length_eq_zero.mp hlen]
  | cons c cs ih =>
    intro rs hall hlen
    by_cases hc : isAlnumCode c
    · rw [List.filter_cons_of_pos hc, List.length_cons] at hlen
      cases rs with
      | nil => simp at hlen
      | cons r rs2 =>
        have hr : isAlnumCode r = true := hall r (by simp)
        rw [replaceAlnum, if_pos hc]
        rw [List.filter_cons_of_pos hr]
        rw [ih rs2 (fun x hx => hall x (by simp [hx]))
          (by simpa using hlen)]
    · rw [List.filter_cons_of_neg hc] at hlen
      rw [replaceAlnum_cons_neg c cs rs hc, List.filter_cons_of_neg hc]
      exact ih rs hall hlen

/-- Replacing the alphanumeric positions twice, the second time with the
original filtered sequence, restores the original string. -/
theorem replaceAlnum_restore (t : JsStr) : ∀ rs : JsStr,
    (∀ r ∈ rs, isAlnumCode r = true) →
    rs.length = (t.filter isAlnumCode).length →
    replaceAlnum (replaceAlnum t rs) (t.filter isAlnumCode) = t := by
  induction t with
  | nil => intro rs _ _; rfl
  | cons c cs ih =>
    intro rs hall hlen
    by_cases hc : isAlnumCode c
    · rw [List.filter_cons_of_pos hc, List.length_cons] at hlen
      cases rs with
      | nil => simp at hlen
      | cons r rs2 =>
        have hr : isAlnumCode r = true := hall r (by simp)
        rw [replaceAlnum, if_pos hc, List.filter_cons_of_pos hc]
        rw [replaceAlnum, if_pos hr]
        rw [ih rs2 (fun x hx => hall x (by simp [hx]))
          (by simpa using hlen)]
    · rw [List.filter_cons_of_neg hc] at hlen
      rw [replaceAlnum_cons_neg c cs rs hc, List.filter_cons_of_neg hc]
      rw [replaceAlnum_cons_neg c _ _ hc]
      rw [ih rs hall hlen]

/-- `digitReversal` preserves length. -/
theorem digitReversal_length (t : JsStr) :
    (digitReversal t).length = t.length := by
  rw [digitReversal, replaceAlnum_length]

/-- `digitReversal` is an involution: applying it twice restores the
original string. -/
theorem digitReversal_involution (t : JsStr) :
    digitReversal (digitReversal t) = t := by
  have hall : ∀ r ∈ (t.filter isAlnumCode).reverse, isAlnumCode r = true := by
    intro r hr
    rw [List.mem_reverse] at hr
    exact (List.mem_filter.mp hr).2
  have hlen : (t.filter isAlnumCode).reverse.length
      = (t.filter isAlnumCode).length := List.length_reverse _
  rw [digitReversal, digitReversal]
  rw [replaceAlnum_filter t (t.filter isAlnumCode).reverse hall hlen]
  rw [List.reverse_reverse]
  exact replaceAlnum_restore t (t.filter isAlnumCode).reverse hall hlen

/-- `encode` on a caesar formula applies `caesarCipher` with the shift. -/
theorem encode_caesar (exec : JsStr → JsStr → JsStr) (x : JsStr)
    (fm : EncodingFormula) (sv : Int) (halg : fm.algorithm = "caesar")
    (hsv : fm.parameters.shiftValue = some sv) :
    encode exec x fm = caesarCipher x sv := by
  by_cases hx : x = []
  · subst hx; simp [encode, caesarCipher]
  · simp [encode, hx, halg, hsv]

/-- `decode` on a caesar formula applies `caesarCipher` with the negated
shift. -/
theorem decode_caesar (exec : JsStr → JsStr → JsStr) (x : JsStr)
    (fm : EncodingFormula) (sv : Int) (halg : fm.algorithm = "caesar")
    (hsv : fm.parameters.shiftValue = some sv) :
    decode exec x fm = caesarCipher x (-sv) := by
  by_cases hx : x = []
  · subst hx; simp [decode, caesarCipher]
  · simp [decode, hx, halg, hsv]

/-- `encode` on a digit-reversal formula applies `digitReversal`. -/
theorem encode_digit_reversal (exec : JsStr → JsStr → JsStr) (x : JsStr)
    (fm : EncodingFormula) (halg : fm.algorithm = "digit_reversal") :
    encode exec x fm = digitReversal x := by
  by_cases hx : x = []
  · subst hx; simp [encode, digitReversal, replaceAlnum]
  · simp [encode, hx, halg]

/-- `decode` on a digit-reversal formula applies the same transform. -/
theorem decode_digit_reversal (exec : JsStr → JsStr → JsStr) (x : JsStr)
    (fm : EncodingFormula) (halg : fm.algorithm = "digit_reversal") :
    decode exec x fm = digitReversal x := by
  by_cases hx : x = []
  · subst hx; simp [decode, digitReversal, replaceAlnum]
  · simp [decode, hx, halg]

/-- `encode` on a position-shift formula applies `positionShift`. -/
theorem encode_position_shift (exec : JsStr → JsStr → JsStr) (x : JsStr)
    (fm : EncodingFormula) (sv : Int)
    (halg : fm.algorithm = "position_shift")
    (hsv : fm.parameters.shiftValue = some sv) :
    encode exec x fm = positionShift x sv := by
  by_cases hx : x = []
  · subst hx; simp [encode, positionShift]
  · simp [encode, hx, halg, hsv]

/-- `decode` on a position-shift formula applies `positionShift` with the
negated shift. -/
theorem decode_position_shift (exec : JsStr → JsStr → JsStr) (x : JsStr)
    (fm : EncodingFormula) (sv : Int)
    (halg : fm.algorithm = "position_shift")
    (hsv : fm.parameters.shiftValue = some sv) :
    decode exec x fm = positionShift x (-sv) := by
  by_cases hx : x = []
  · subst hx; simp [decode, positionShift]
  · simp [decode, hx, halg, hsv]

/-- `encode` on a custom-mapping formula applies `customMapping`. -/
theorem encode_custom_mapping (exec : JsStr → JsStr → JsStr) (x : JsStr)
    (fm : EncodingFormula) (m : List (Nat × Nat))
    (halg : fm.algorithm = "custom_mapping")
    (hm : fm.parameters.customMapping = some m) :
    encode exec x fm = customMapping x m := by
  by_cases hx : x = []
  · subst hx; simp [encode, customMapping]
  · simp [encode, hx, halg, hm]

/-- `decode` on a custom-mapping formula applies `reverseCustomMapping`. -/
theorem decode_custom_mapping (exec : JsStr → JsStr → JsStr) (x : JsStr)
    (fm : EncodingFormula) (m : List (Nat × Nat))
    (halg : fm.algorithm = "custom_mapping")
    (hm : fm.parameters.customMapping = some m) :
    decode exec x fm = reverseCustomMapping x m := by
  by_cases hx : x = []
  · subst hx; simp [decode, reverseCustomMapping]
  · simp [decode, hx, halg, hm]

/-- `decode` on a `custom` formula returns its input unchanged. -/
theorem decode_custom (exec : JsStr → JsStr → JsStr) (x : JsStr)
    (fm : EncodingFormula) (halg : fm.algorithm = "custom") :
    decode exec x fm = x := by
  by_cases hx : x = []
  · subst hx; simp [decode]
  · simp [decode, hx, halg, reverseCustomFunction]

/-- `encode` returns its input unchanged on any unknown algorithm tag
(the thrown error is caught and the original value returned). -/
theorem encode_unknown (exec : JsStr → JsStr → JsStr) (x : JsStr)
    (fm : EncodingFormula) (h1 : fm.algorithm ≠ "caesar")
    (h2 : fm.algorithm ≠ "digit_reversal")
    (h3 : fm.algorithm ≠ "position_shift")
    (h4 : fm.algorithm ≠ "custom_mapping")
    (h5 : fm.algorithm ≠ "custom") :
    encode exec x fm = x := by
  by_cases hx : x = []
  · subst hx; simp [encode]
  · simp [encode, hx, h1, h2, h3, h4, h5]

/-- `decode` returns its input unchanged on any unknown algorithm tag. -/
theorem decode_unknown (exec : JsStr → JsStr → JsStr) (x : JsStr)
    (fm : EncodingFormula) (h1 : fm.algorithm ≠ "caesar")
    (h2 : fm.algorithm ≠ "digit_reversal")
    (h3 : fm.algorithm ≠ "position_shift")
    (h4 : fm.algorithm ≠ "custom_mapping")
    (h5 : fm.algorithm ≠ "custom") :
    decode exec x fm = x := by
  by_cases hx : x = []
  · subst hx; simp [decode]
  · simp [decode, hx, h1, h2, h3, h4, h5]

/-- `encode` on a caesar formula with arbitrary (possibly absent)
parameters: the shift defaults to `0`. -/
theorem encode_caesar_default (exec : JsStr → JsStr → JsStr) (x : JsStr)
    (fm : EncodingFormula) (halg : fm.algorithm = "caesar") :
    encode exec x fm = caesarCipher x (fm.parameters.shiftValue.getD 0) := by
  by_cases hx : x = []
  · subst hx; simp [encode, caesarCipher]
  · simp [encode, hx, halg]

/-- `decode` counterpart of `encode_caesar_default`. -/
theorem decode_caesar_default (exec : JsStr → JsStr → JsStr) (x : JsStr)
    (fm : EncodingFormula) (halg : fm.algorithm = "caesar") :
    decode exec x fm
      = caesarCipher x (-(fm.parameters.shiftValue.getD 0)) := by
  by_cases hx : x = []
  · subst hx; simp [decode, caesarCipher]
  · simp [decode, hx, halg]

/-- `encode` on a position-shift formula with arbitrary parameters. -/
theorem encode_position_shift_default (exec : JsStr → JsStr → JsStr)
    (x : JsStr) (fm : EncodingFormula)
    (halg : fm.algorithm = "position_shift") :
    encode exec x fm = positionShift x (fm.parameters.shiftValue.getD 0) := by
  by_cases hx : x = []
  · subst hx; simp [encode, positionShift]
  · simp [encode, hx, halg]

/-- `decode` counterpart of `encode_position_shift_default`. -/
theorem decode_position_shift_default (exec : JsStr → JsStr → JsStr)
    (x : JsStr) (fm : EncodingFormula)
    (halg : fm.algorithm = "position_shift") :
    decode exec x fm
      = positionShift x (-(fm.parameters.shiftValue.getD 0)) := by
  by_cases hx : x = []
  · subst hx; simp [decode, positionShift]
  · simp [decode, hx, halg]

/-- Encoding and then decoding through `ambiguousMapping` is pointwise
application of the composite of the forward map and the inverse map. -/
theorem ambiguous_composite (sample : JsStr) :
    reverseCustomMapping (customMapping sample ambiguousMapping)
      ambiguousMapping
    = sample.map (fun c =>
        (objGet (buildReverseMap ambiguousMapping)
            ((objGet ambiguousMapping c).getD c)).getD
          ((objGet ambiguousMapping c).getD c)) := by
  rw [customMapping, reverseCustomMapping, List.map_map]
  rfl

/-- A function moving the character `98` cannot map a string containing
`98` to itself. -/
theorem map_ne_self_of_mem (f : Nat → Nat) (hf : f 98 = 99) :
    ∀ sample : JsStr, 98 ∈ sample → sample.map f ≠ sample := by
  intro sample
  induction sample with
  | nil => intro h; cases h
  | cons c t ih =>
    intro hmem hcontra
    rw [List.map_cons] at hcontra
    injection hcontra with h1 h2
    rcases List.mem_cons.mp hmem with hc | hc
    · subst hc
      rw [hf] at h1
      exact absurd h1 (by decide)
    · exact ih hc h2

/-- The formula of claim C3: `id` and `name` empty, algorithm `caesar`,
empty parameter bag. -/
def invalidCaesarFormula : EncodingFormula :=
  ⟨[], [], "caesar", ⟨none, none, none⟩, 0⟩

/-- A formula whose algorithm tag is outside the closed enumeration. -/
def unknownFormula : EncodingFormula :=
  ⟨strCodes "f1", strCodes "Formula 1", "rot13", ⟨none, none, none⟩, 0⟩

/-- A formula with the `custom` algorithm. -/
def customFormula : EncodingFormula :=
  mkFormula "custom" ⟨none, none, some (strCodes "return text")⟩

/-- C1 (counterexample): the round-trip law fails as stated for a valid
caesar parameter set; with `shiftValue = 27`, `"Z"` encodes to `"A"` but
decoding yields `"@"` (the truncated JS `%` of a negative dividend leaves
the letter range), not `"Z"`. -/
theorem c1_counterexample :
    decode execId (encode execId (strCodes "Z") (caesarFormula 27))
      (caesarFormula 27) ≠ strCodes "Z" := by decide

/-- C1 (amended): round-trip law: for every digit-reversal formula, for
every position-shift formula with any integer `shiftValue`, and for
every caesar formula whose `shiftValue` lies between `-10` and `10`,
`decode (encode x fm) fm = x` for every string `x` and every custom
executor. -/
theorem c1_roundtrip (exec : JsStr → JsStr → JsStr) (x : JsStr)
    (fm : EncodingFormula)
    (h : fm.algorithm = "digit_reversal"
      ∨ (fm.algorithm = "position_shift"
          ∧ ∃ sv, fm.parameters.shiftValue = some sv)
      ∨ (fm.algorithm = "caesar"
          ∧ ∃ sv, fm.parameters.shiftValue = some sv
            ∧ -10 ≤ sv ∧ sv ≤ 10)) :
    decode exec (encode exec x fm) fm = x := by
  rcases h with h | ⟨h, sv, hsv⟩ | ⟨h, sv, hsv, hs1, hs2⟩
  · rw [encode_digit_reversal exec x fm h,
      decode_digit_reversal exec _ fm h]
    exact digitReversal_involution x
  · rw [encode_position_shift exec x fm sv h hsv,
      decode_position_shift exec _ fm sv h hsv]
    exact positionShift_roundtrip x sv
  · rw [encode_caesar exec x fm sv h hsv,
      decode_caesar exec _ fm sv h hsv]
    exact caesarCipher_roundtrip x sv hs1 hs2

/-- C1 (witness): the round trip at the caesar formula with shift 3 on
`"ABC123XYZ"`. -/
theorem c1_roundtrip_witness :
    ((caesarFormula 3).algorithm = "caesar"
      ∧ (caesarFormula 3).parameters.shiftValue = some 3)
    ∧ decode execId (encode execId (strCodes "ABC123XYZ") (caesarFormula 3))
        (caesarFormula 3) = strCodes "ABC123XYZ" :=
  ⟨⟨rfl, rfl⟩, c1_roundtrip execId (strCodes "ABC123XYZ") (caesarFormula 3)
    (Or.inr (Or.inr ⟨rfl, 3, rfl, by decide, by decide⟩))⟩

/-- C2 (counterexample): encoding `"ABC123XYZ"` with caesar shift 3 does
not return the spec's literal `"DEF456CAB"`. -/
theorem c2_counterexample :
    encode execId (strCodes "ABC123XYZ") (caesarFormula 3)
      ≠ strCodes "DEF456CAB" := by decide

/-- C2 (amended): encoding `"ABC123XYZ"` with any caesar formula whose
`shiftValue` is 3 returns `"DEF456ABC"` (letters wrap mod 26, digits
mod 10; X→A, Y→B, Z→C exactly as the spec's own derivation states). -/
theorem c2_caesar_example (exec : JsStr → JsStr → JsStr)
    (fm : EncodingFormula) (halg : fm.algorithm = "caesar")
    (hsv : fm.parameters.shiftValue = some 3) :
    encode exec (strCodes "ABC123XYZ") fm = strCodes "DEF456ABC" := by
  rw [encode_caesar exec _ fm 3 halg hsv]
  decide

/-- C2 (witness): the worked example at the concrete caesar formula. -/
theorem c2_caesar_example_witness :
    ((caesarFormula 3).algorithm = "caesar"
      ∧ (caesarFormula 3).parameters.shiftValue = some 3)
    ∧ encode execId (strCodes "ABC123XYZ") (caesarFormula 3)
        = strCodes "DEF456ABC" :=
  ⟨⟨rfl, rfl⟩, c2_caesar_example execId (caesarFormula 3) rfl rfl⟩

/-- C3 (counterexample): the validator yields `isValid = false` on the
formula with empty id/name, algorithm caesar and empty parameters, but
collects 3 errors, not at least 4. -/
theorem c3_counterexample :
    (validateFormula invalidCaesarFormula).isValid = false
    ∧ ¬ 4 ≤ (validateFormula invalidCaesarFormula).errors.length := by
  decide

/-- C3 (amended): on that formula the validator reports `isValid = false`
with exactly the 3 errors: missing id, missing name, missing numeric
shift value (the algorithm is present, so no algorithm error). -/
theorem c3_validator :
    (validateFormula invalidCaesarFormula).isValid = false
    ∧ (validateFormula invalidCaesarFormula).errors
      = ["Formula ID is required", "Formula name is required",
          "Caesar cipher requires a numeric shift value"] := by
  decide

/-- C4: with the non-injective mapping \x7ba: 'b', c: 'b'\x7d, decode
maps `'b'` to `'c'` (the key of the last-inserted inverse entry), and
the self-test harness reports `isReversible = false` for every sample
containing the ambiguous character `'b'` (code 98). -/
theorem c4_custom_mapping (exec : JsStr → JsStr → JsStr) :
    decode exec (strCodes "b") ambiguousFormula = strCodes "c"
    ∧ ∀ sample : JsStr, 98 ∈ sample →
      (testFormula exec ambiguousFormula sample).isReversible = false := by
  constructor
  · rw [decode_custom_mapping exec _ ambiguousFormula ambiguousMapping
      rfl rfl]
    decide
  · intro sample hmem
    have henc : encode exec sample ambiguousFormula
        = customMapping sample ambiguousMapping :=
      encode_custom_mapping exec sample ambiguousFormula ambiguousMapping
        rfl rfl
    have hdec : decode exec (customMapping sample ambiguousMapping)
        ambiguousFormula
        = reverseCustomMapping (customMapping sample ambiguousMapping)
          ambiguousMapping :=
      decode_custom_mapping exec _ ambiguousFormula ambiguousMapping
        rfl rfl
    have hne : reverseCustomMapping (customMapping sample ambiguousMapping)
        ambiguousMapping ≠ sample := by
      rw [ambiguous_composite sample]
      exact map_ne_self_of_mem _ (by decide) sample hmem
    simp only [testFormula]
    rw [henc, hdec]
    exact beq_eq_false_iff_ne.mpr (fun heq => hne heq.symm)

/-- C4 (witness): the harness reports non-reversibility on the sample
`"abc"`, which contains the ambiguous character. -/
theorem c4_custom_mapping_witness :
    98 ∈ strCodes "abc"
    ∧ (testFormula execId ambiguousFormula (strCodes "abc")).isReversible
      = false :=
  ⟨by decide, (c4_custom_mapping execId).2 (strCodes "abc") (by decide)⟩

/-- C5: for every digit-reversal formula, encode and decode are the same
operation, applying it twice restores the original, and the worked
example `"AB-12" ↔ "21-BA"` holds in both directions. -/
theorem c5_digit_reversal (exec : JsStr → JsStr → JsStr) (x : JsStr)
    (fm : EncodingFormula) (halg : fm.algorithm = "digit_reversal") :
    (encode exec x fm = decode exec x fm
      ∧ decode exec (encode exec x fm) fm = x)
    ∧ (encode exec (strCodes "AB-12") fm = strCodes "21-BA"
      ∧ encode exec (strCodes "21-BA") fm = strCodes "AB-12") := by
  refine ⟨⟨?_, ?_⟩, ?_, ?_⟩
  · rw [encode_digit_reversal exec x fm halg,
      decode_digit_reversal exec x fm halg]
  · rw [encode_digit_reversal exec x fm halg,
      decode_digit_reversal exec _ fm halg]
    exact digitReversal_involution x
  · rw [encode_digit_reversal exec _ fm halg]
    decide
  · rw [encode_digit_reversal exec _ fm halg]
    decide

/-- C5 (witness): the involution and the worked example at the concrete
digit-reversal formula on `"AB-12"`. -/
theorem c5_digit_reversal_witness :
    digitReversalFormula.algorithm = "digit_reversal"
    ∧ decode execId (encode execId (strCodes "AB-12") digitReversalFormula)
        digitReversalFormula = strCodes "AB-12" :=
  ⟨rfl, (c5_digit_reversal execId (strCodes "AB-12") digitReversalFormula
    rfl).1.2⟩

/-- C6: position-shift semantics: strings of length ≤ 1 are returned
unchanged by encode and decode for any shift; longer strings are rotated
left by `shiftValue` modulo the length (Euclidean remainder); and the
worked example `"ABCDE" ↔ "CDEAB"` at shift 2 holds. -/
theorem c6_position_shift (exec : JsStr → JsStr → JsStr) (x : JsStr)
    (fm : EncodingFormula) (sv : Int)
    (halg : fm.algorithm = "position_shift")
    (hsv : fm.parameters.shiftValue = some sv) :
    (x.length ≤ 1 → encode exec x fm = x ∧ decode exec x fm = x)
    ∧ (2 ≤ x.length → encode exec x fm
        = x.drop (sv % (x.length : Int)).toNat
          ++ x.take (sv % (x.length : Int)).toNat)
    ∧ (sv = 2 → encode exec (strCodes "ABCDE") fm = strCodes "CDEAB"
        ∧ decode exec (strCodes "CDEAB") fm = strCodes "ABCDE") := by
  refine ⟨?_, ?_, ?_⟩
  · intro hlen
    constructor
    · rw [encode_position_shift exec x fm sv halg hsv, positionShift,
        if_pos hlen]
    · rw [decode_position_shift exec x fm sv halg hsv, positionShift,
        if_pos hlen]
  · intro hlen
    have hnn : 0 ≤ sv % (x.length : Int) :=
      Int.emod_nonneg _ (by omega)
    have hlt : sv % (x.length : Int) < x.length :=
      Int.emod_lt_of_pos _ (by omega)
    rw [encode_position_shift exec x fm sv halg hsv,
      positionShift_eq_rotate x sv hlen,
      List.rotate_eq_drop_append_take (by omega)]
  · intro hsv2
    subst hsv2
    constructor
    · rw [encode_position_shift exec _ fm 2 halg hsv]
      decide
    · rw [decode_position_shift exec _ fm 2 halg hsv]
      decide

/-- C6 (witness): the worked example at the concrete position-shift
formula with shift 2. -/
theorem c6_position_shift_witness :
    encode execId (strCodes "ABCDE") (positionShiftFormula 2)
      = strCodes "CDEAB"
    ∧ decode execId (strCodes "CDEAB") (positionShiftFormula 2)
      = strCodes "ABCDE" :=
  (c6_position_shift execId (strCodes "ABCDE") (positionShiftFormula 2) 2
    rfl rfl).2.2 rfl

/-- C7: fail-open policy: the embedded `encode`/`decode` are total
functions (never raise), and on every formula whose algorithm tag is
outside the closed enumeration both return the input string unchanged. -/
theorem c7_fail_open (exec : JsStr → JsStr → JsStr) (value : JsStr)
    (fm : EncodingFormula) (h1 : fm.algorithm ≠ "caesar")
    (h2 : fm.algorithm ≠ "digit_reversal")
    (h3 : fm.algorithm ≠ "position_shift")
    (h4 : fm.algorithm ≠ "custom_mapping")
    (h5 : fm.algorithm ≠ "custom") :
    encode exec value fm = value ∧ decode exec value fm = value :=
  ⟨encode_unknown exec value fm h1 h2 h3 h4 h5,
    decode_unknown exec value fm h1 h2 h3 h4 h5⟩

/-- C7 (witness): the unknown tag `"rot13"` on the string `"X"`. -/
theorem c7_fail_open_witness :
    unknownFormula.algorithm = "rot13"
    ∧ encode execId (strCodes "X") unknownFormula = strCodes "X"
    ∧ decode execId (strCodes "X") unknownFormula = strCodes "X" :=
  ⟨rfl,
    c7_fail_open execId (strCodes "X") unknownFormula (by decide)
      (by decide) (by decide) (by decide) (by decide)⟩

/-- C8: caesar identity: a caesar formula with `shiftValue = 0` encodes
every string to itself. -/
theorem c8_caesar_identity (exec : JsStr → JsStr → JsStr) (x : JsStr)
    (fm : EncodingFormula) (halg : fm.algorithm = "caesar")
    (hsv : fm.parameters.shiftValue = some 0) :
    encode exec x fm = x := by
  rw [encode_caesar exec x fm 0 halg hsv]
  exact caesarCipher_zero x

/-- C8 (witness): identity at shift 0 on `"Az09-!"`. -/
theorem c8_caesar_identity_witness :
    ((caesarFormula 0).algorithm = "caesar"
      ∧ (caesarFormula 0).parameters.shiftValue = some 0)
    ∧ encode execId (strCodes "Az09-!") (caesarFormula 0)
      = strCodes "Az09-!" :=
  ⟨⟨rfl, rfl⟩, c8_caesar_identity execId (strCodes "Az09-!")
    (caesarFormula 0) rfl rfl⟩

/-- C9: for every formula with the `custom` algorithm, `decode` returns
its input unchanged (the decode side is a placeholder, not an inverse of
the user-supplied transform). -/
theorem c9_custom_decode (exec : JsStr → JsStr → JsStr) (x : JsStr)
    (fm : EncodingFormula) (halg : fm.algorithm = "custom") :
    decode exec x fm = x :=
  decode_custom exec x fm halg

/-- C9 (witness): at the concrete custom formula on `"Hello"`. -/
theorem c9_custom_decode_witness :
    customFormula.algorithm = "custom"
    ∧ decode execId (strCodes "Hello") customFormula = strCodes "Hello" :=
  ⟨rfl, c9_custom_decode execId (strCodes "Hello") customFormula rfl⟩

/-- C10: for caesar, digit-reversal and position-shift formulas, encode
and decode preserve the length of the string (in UTF-16 code units). -/
theorem c10_length_preservation (exec : JsStr → JsStr → JsStr) (x : JsStr)
    (fm : EncodingFormula)
    (h : fm.algorithm = "caesar" ∨ fm.algorithm = "digit_reversal"
      ∨ fm.algorithm = "position_shift") :
    (encode exec x fm).length = x.length
    ∧ (decode exec x fm).length = x.length := by
  rcases h with h | h | h
  · rw [encode_caesar_default exec x fm h,
      decode_caesar_default exec x fm h, caesarCipher_length,
      caesarCipher_length]
    exact ⟨rfl, rfl⟩
  · rw [encode_digit_reversal exec x fm h,
      decode_digit_reversal exec x fm h, digitReversal_length]
    exact ⟨rfl, rfl⟩
  · rw [encode_position_shift_default exec x fm h,
      decode_position_shift_default exec x fm h, positionShift_length,
      positionShift_length]
    exact ⟨rfl, rfl⟩

/-- C10 (witness): length preservation at the position-shift formula
with shift 2 on `"ABCDE"`. -/
theorem c10_length_preservation_witness :
    (positionShiftFormula 2).algorithm = "position_shift"
    ∧ (encode execId (strCodes "ABCDE") (positionShiftFormula 2)).length
      = (strCodes "ABCDE").length
    ∧ (decode execId (strCodes "ABCDE") (positionShiftFormula 2)).length
      = (strCodes "ABCDE").length :=
  ⟨rfl, c10_length_preservation execId (strCodes "ABCDE")
    (positionShiftFormula 2) (Or.inr (Or.inr rfl))⟩

end Vigil
